import Mathlib

/-!
Verification of the chisel repository's core against its specification.

The Go sources are shallowly embedded: pure functions become Lean
functions over explicit data (Go maps become association lists, Go's
`(T, error)` results become `Option`/`Except`), and machine integers
become `Nat`/`Int` (no overflow is relevant to the embedded code paths).
Path strings are manipulated through their character lists to model Go's
`path/filepath` functions for unix paths.
-/

set_option autoImplicit false

namespace Chisel

/-! ## Path utilities (model of Go `path/filepath` for unix paths)

`cleanPath` models `filepath.Clean`, `isAbsPath` models `filepath.IsAbs`,
and `relPathGo` models `filepath.Rel`.  They are semantic models of the
Go standard library (segment-stack form of the same algorithm), used by
the repository code embedded below. -/

/-- Split a character list on `'/'` separators (keeping empty segments,
like Go's `strings.Split`). -/
def splitOnSlash : List Char → List (List Char)
  | [] => [[]]
  | '/' :: rest => [] :: splitOnSlash rest
  | c :: rest =>
    match splitOnSlash rest with
    | seg :: segs => (c :: seg) :: segs
    | [] => [[c]]

/-- The `".."` path segment. -/
def dotdot : List Char := ['.', '.']

/-- The meaningful segments of a path: empty segments and `"."` are
dropped, as `filepath.Clean` ignores them. -/
def segsOf (p : String) : List (List Char) :=
  (splitOnSlash p.data).filter (fun s => decide (s ≠ [] ∧ s ≠ ['.']))

/-- Resolve `".."` segments against a stack of segments already emitted,
exactly as `filepath.Clean` does: a `".."` pops a previous real segment,
is dropped at the root of a rooted path, and is kept for a relative
path with nothing left to pop. The accumulated `stack` is reversed. -/
def resolveSegs (rooted : Bool) : List (List Char) → List (List Char) → List (List Char)
  | stack, [] => stack.reverse
  | stack, seg :: rest =>
    if seg = dotdot then
      match stack with
      | [] => if rooted then resolveSegs rooted [] rest else resolveSegs rooted [dotdot] rest
      | top :: stk =>
        if top = dotdot then resolveSegs rooted (seg :: stack) rest
        else resolveSegs rooted stk rest
    else resolveSegs rooted (seg :: stack) rest

/-- Join segments with `'/'`. -/
def joinSegs : List (List Char) → List Char
  | [] => []
  | [s] => s
  | s :: rest => s ++ '/' :: joinSegs rest

/-- Model of `filepath.IsAbs` for unix: the path starts with `'/'`. -/
def isAbsPath (p : String) : Bool :=
  match p.data with
  | c :: _ => c = '/'
  | [] => false

/-- Whether `a` is a string prefix of `b` (Go `strings.HasPrefix`). -/
def strPfx (a b : String) : Bool := a.data.isPrefixOf b.data

/-- The data of an appended string. -/
theorem strData_append (a b : String) : (a ++ b).data = a.data ++ b.data := by
  cases a
  cases b
  rfl

/-- Model of `filepath.Clean` for unix paths. -/
def cleanPath (p : String) : String :=
  if p = "" then "."
  else
    let rooted := isAbsPath p
    let segs := resolveSegs rooted [] (segsOf p)
    if segs.isEmpty then (if rooted then "/" else ".")
    else ⟨(if rooted then ['/'] else []) ++ joinSegs segs⟩

/-- Strip the common leading segments of two segment lists. -/
def stripCommon : List (List Char) → List (List Char) → List (List Char) × List (List Char)
  | b :: bs, t :: ts => if b = t then stripCommon bs ts else (b :: bs, t :: ts)
  | bs, ts => (bs, ts)

/-- Model of `filepath.Rel base targ` for unix paths: both paths are
cleaned; equal paths yield `"."`; mixing an absolute with a relative
path fails; a base remainder starting with `".."` fails; otherwise the
result climbs out of the base remainder with `".."` segments and then
descends into the target remainder. `none` models the Go error. -/
def relPathGo (base targ : String) : Option String :=
  let babs := isAbsPath base
  let tabs := isAbsPath targ
  let bsegs := resolveSegs babs [] (segsOf base)
  let tsegs := resolveSegs tabs [] (segsOf targ)
  if babs = tabs ∧ bsegs = tsegs then some "."
  else if babs ≠ tabs then none
  else
    match stripCommon bsegs tsegs with
    | (seg :: brest, trem) =>
      if seg = dotdot then none
      else some ⟨joinSegs (List.replicate (brest.length + 1) dotdot ++ trem)⟩
    | ([], trem) => some ⟨joinSegs trem⟩

/-- Go's `%q` rendering of a string, for the plain strings appearing in
this development (no characters needing escapes). -/
def quoteGo (s : String) : String := "\"" ++ s ++ "\""

/-! ## The `manifest` package (src/unnamed/part_000)

Data model of `manifest.wall` records and the validating reader's
`Validate` function. -/

/-- `manifest.Package` record. -/
structure Package where
  kind : String
  name : String
  version : String
  digest : String
  arch : String
deriving DecidableEq

/-- `manifest.Slice` record. -/
structure Slice where
  kind : String
  name : String
deriving DecidableEq

/-- `manifest.Path` record. -/
structure Path where
  kind : String
  path : String
  mode : String
  slices : List String
  hash : String
  finalHash : String
  size : Nat
  link : String
deriving DecidableEq

/-- `manifest.Content` record. -/
structure Content where
  kind : String
  slice : String
  path : String
deriving DecidableEq

/-- `manifest.Manifest`. -/
structure Manifest where
  paths : List Path
  contents : List Content
  packages : List Package
  slices : List Slice
deriving DecidableEq

/-- The inner errors `Validate` can produce, one constructor per
`return` site in the source; `VErr.msg` renders the literal message
strings of the source (several are `""` or `"TODO"` there). -/
inductive VErr where
  | badPackageKind
  | badSliceKind
  | badContentKind
  | sliceNotFound (slice : String)
  | badPathKind
  | pathNotFound (path : String)
  | divergingSlices (path : String)
deriving DecidableEq

/-- The literal error strings of the corresponding `fmt.Errorf` calls. -/
def VErr.msg : VErr → String
  | .sliceNotFound _ => "TODO"
  | .pathNotFound _ => "TODO"
  | .divergingSlices _ => "TODO"
  | _ => ""

/-- The `pathToSlices` map of `Validate`: for a path, the slices of the
content records referencing it, in content order (Go appends while
iterating `manifest.Contents`). -/
def pathToSlices (contents : List Content) (p : String) : List String :=
  (contents.filter (fun c => decide (c.path = p))).map (·.slice)

/-- The contents loop of `Validate`: kind check, then membership of the
content's slice in `sliceExist`. -/
def checkContents (sliceNames : List String) : List Content → Option VErr
  | [] => none
  | c :: rest =>
    if c.kind ≠ "content" then some .badContentKind
    else if c.slice ∉ sliceNames then some (.sliceNotFound c.slice)
    else checkContents sliceNames rest

/-- The paths loop of `Validate`: kind check, lookup in `pathToSlices`
(a missing key is an empty filter result), then `slices.Equal` — plain
ordered list equality. -/
def checkPaths (contents : List Content) : List Path → Option VErr
  | [] => none
  | p :: rest =>
    if p.kind ≠ "path" then some .badPathKind
    else
      let pts := pathToSlices contents p.path
      if pts = [] then some (.pathNotFound p.path)
      else if pts ≠ p.slices then some (.divergingSlices p.path)
      else checkPaths contents rest

/-- The body of `Validate` (part_000) before its deferred wrapper: the
package and slice kind loops (`pkgExist` is built but never consulted
afterwards), the contents loop, and the paths loop, returning the first
error in program order. -/
def validateErr (m : Manifest) : Option VErr :=
  if m.packages.any (fun p => decide (p.kind ≠ "package")) then some .badPackageKind
  else if m.slices.any (fun s => decide (s.kind ≠ "slice")) then some .badSliceKind
  else
    match checkContents (m.slices.map (·.name)) m.contents with
    | some e => some e
    | none => checkPaths m.contents m.paths

/-- Go's `%s` rendering of an `error` value: a nil error prints as
`%!s(<nil>)`. -/
def goErrFmt : Option VErr → String
  | none => "%!s(<nil>)"
  | some e => e.msg

/-- `manifest.Validate` (part_000). Its deferred function runs
unconditionally, rebuilding `err` even when the body returned `nil`, so
the result is always a non-nil error (`some`). -/
def Validate (m : Manifest) : Option String :=
  some ("invalid manifest: " ++ goErrFmt (validateErr m))

/-! Concrete manifests from `internal/manifest/manifest_test.go`. -/

/-- The valid manifest of the "All types" test case. -/
def allTypesManifest : Manifest :=
  { paths :=
      [ { kind := "path", path := "/dir/file", mode := "0644", slices := ["pkg1_myslice"],
          hash := "e3b0c44298fc1c149afbf4c8996fb92427ae41e4649b934ca495991b7852b855",
          finalHash := "8067926c032c090867013d14fb0eb21ae858344f62ad07086fd32375845c91a6",
          size := 21, link := "" },
        { kind := "path", path := "/dir/foo/bar/", mode := "01777",
          slices := ["pkg1_myslice", "pkg2_myotherslice"],
          hash := "", finalHash := "", size := 0, link := "" },
        { kind := "path", path := "/dir/link/file", mode := "0644", slices := ["pkg1_myslice"],
          hash := "", finalHash := "", size := 0, link := "/dir/file" },
        { kind := "path", path := "/manifest/manifest.wall", mode := "0644",
          slices := ["pkg1_manifest"], hash := "", finalHash := "", size := 0, link := "" } ],
    contents :=
      [ { kind := "content", slice := "pkg1_manifest", path := "/manifest/manifest.wall" },
        { kind := "content", slice := "pkg1_myslice", path := "/dir/file" },
        { kind := "content", slice := "pkg1_myslice", path := "/dir/foo/bar/" },
        { kind := "content", slice := "pkg1_myslice", path := "/dir/link/file" },
        { kind := "content", slice := "pkg2_myotherslice", path := "/dir/foo/bar/" } ],
    packages :=
      [ { kind := "package", name := "pkg1", version := "v1", digest := "hash1", arch := "arch1" },
        { kind := "package", name := "pkg2", version := "v2", digest := "hash2", arch := "arch2" } ],
    slices :=
      [ { kind := "slice", name := "pkg1_manifest" },
        { kind := "slice", name := "pkg1_myslice" },
        { kind := "slice", name := "pkg2_myotherslice" } ] }

/-- The manifest of the "Package not found" test case: one slice record
`pkg1_manifest` and no package records; the test expects the error
`package "pkg1" not found in packages`. -/
def pkgNotFoundManifest : Manifest :=
  { paths := [], contents := [], packages := [],
    slices := [ { kind := "slice", name := "pkg1_manifest" } ] }

/-- A manifest whose only path record lists the same slices as its
content records but in the opposite order. -/
def orderOnlyManifest : Manifest :=
  { paths :=
      [ { kind := "path", path := "/d/", mode := "01777",
          slices := ["pkg1_b", "pkg1_a"], hash := "", finalHash := "", size := 0, link := "" } ],
    contents :=
      [ { kind := "content", slice := "pkg1_a", path := "/d/" },
        { kind := "content", slice := "pkg1_b", path := "/d/" } ],
    packages :=
      [ { kind := "package", name := "pkg1", version := "v1", digest := "h1", arch := "a1" } ],
    slices :=
      [ { kind := "slice", name := "pkg1_a" },
        { kind := "slice", name := "pkg1_b" } ] }

/-- Claim C1: the claim says the reader's validation returns error-free when
all cross-checks pass, and that write-then-read yields the manifest
back. The code contradicts this: `Validate`'s deferred wrapper rebuilds
`err` unconditionally (no `if err != nil` guard), so even on the valid
"All types" manifest — whose every inner check passes (`validateErr`
is `none`) — `Validate` returns the non-nil error
`invalid manifest: %!s(<nil>)`, and the reader can never return a
manifest. -/
theorem c1_validate_never_nil :
    validateErr allTypesManifest = none ∧
    Validate allTypesManifest = some "invalid manifest: %!s(<nil>)" := by
  constructor
  · decide
  · decide

/-- Claim C4: the claim (and the repository's own "Package not found" test)
expects validation to fail with `package "pkg1" not found in packages`
when a slice record's package is missing. `Validate` (part_000) builds
`pkgExist` but never consults it: on that test's manifest no inner
check fails, so no package-existence error is ever produced — the only
error returned is the unconditional wrapper's artifact. -/
theorem c4_no_package_check :
    validateErr pkgNotFoundManifest = none ∧
    Validate pkgNotFoundManifest = some "invalid manifest: %!s(<nil>)" := by
  constructor
  · decide
  · decide

/-- Claim C3 counterexample: on `orderOnlyManifest` the slices of the path
record and of the content records agree as sets (they are permutations
of each other) yet validation rejects the manifest with the
diverging-slices error, because `Validate` compares the two lists with
`slices.Equal`, which is order-dependent. -/
theorem c3_counterexample :
    validateErr orderOnlyManifest = some (.divergingSlices "/d/") ∧
    (pathToSlices orderOnlyManifest.contents "/d/").Perm
      ["pkg1_b", "pkg1_a"] := by
  constructor
  · decide
  · decide

/-- `checkPaths` succeeds exactly when every path record has the right
kind and its `slices` equal, as an ordered list, the non-empty list of
content slices for that path. -/
theorem checkPaths_eq_none_iff (contents : List Content) (paths : List Path) :
    checkPaths contents paths = none ↔
      ∀ p ∈ paths, p.kind = "path" ∧ pathToSlices contents p.path ≠ [] ∧
        pathToSlices contents p.path = p.slices := by
  induction paths with
  | nil => simp [checkPaths]
  | cons p rest ih =>
    by_cases hk : p.kind = "path"
    · by_cases he : pathToSlices contents p.path = []
      · have hstep : checkPaths contents (p :: rest) = some (.pathNotFound p.path) := by
          unfold checkPaths
          rw [if_neg (by simp [hk]), if_pos he]
        rw [hstep]
        simp only [reduceCtorEq, false_iff, not_forall]
        exact ⟨p, List.mem_cons_self p rest, fun h => h.2.1 he⟩
      · by_cases hs : pathToSlices contents p.path = p.slices
        · have hstep : checkPaths contents (p :: rest) = checkPaths contents rest := by
            conv_lhs => unfold checkPaths
            rw [if_neg (by simp [hk]), if_neg he, if_neg (by simp [hs])]
          rw [hstep, ih]
          constructor
          · intro h q hq
            rcases List.mem_cons.mp hq with rfl | hq'
            · exact ⟨hk, he, hs⟩
            · exact h q hq'
          · intro h q hq
            exact h q (List.mem_cons_of_mem p hq)
        · have hstep : checkPaths contents (p :: rest) = some (.divergingSlices p.path) := by
            unfold checkPaths
            rw [if_neg (by simp [hk]), if_neg he, if_pos (by simp [hs])]
          rw [hstep]
          simp only [reduceCtorEq, false_iff, not_forall]
          exact ⟨p, List.mem_cons_self p rest, fun h => hs h.2.2⟩
    · have hstep : checkPaths contents (p :: rest) = some .badPathKind := by
        unfold checkPaths
        rw [if_pos hk]
      rw [hstep]
      simp only [reduceCtorEq, false_iff, not_forall]
      exact ⟨p, List.mem_cons_self p rest, fun h => hk h.1⟩

/-- Claim C3 (amended): the reader's path/slices cross-check is
order-dependent, not a set comparison. When the earlier checks pass
(kinds of package/slice records, and the contents loop), validation's
body succeeds exactly when every path record has kind "path" and its
`slices` list equals — as an ordered list (`slices.Equal` in the
source) — the list of slices of the content records referencing that
path, in content-record order, which must be non-empty. (Independently
of this, the deferred wrapper makes `Validate` return a non-nil
`invalid manifest` error even then; see C1.) -/
theorem c3_ordered_not_set_equality (m : Manifest)
    (h1 : ∀ p ∈ m.packages, p.kind = "package")
    (h2 : ∀ s ∈ m.slices, s.kind = "slice")
    (h3 : checkContents (m.slices.map (·.name)) m.contents = none) :
    validateErr m = none ↔
      ∀ p ∈ m.paths, p.kind = "path" ∧ pathToSlices m.contents p.path ≠ [] ∧
        pathToSlices m.contents p.path = p.slices := by
  unfold validateErr
  have hp : m.packages.any (fun p => decide (p.kind ≠ "package")) = false := by
    simp only [List.any_eq_false, decide_eq_true_eq, ne_eq, not_not]
    intro p hp
    exact h1 p hp
  have hs : m.slices.any (fun s => decide (s.kind ≠ "slice")) = false := by
    simp only [List.any_eq_false, decide_eq_true_eq, ne_eq, not_not]
    intro s hs
    exact h2 s hs
  rw [hp, hs, h3]
  simp only [Bool.false_eq_true, if_false]
  exact checkPaths_eq_none_iff m.contents m.paths

/-- Witness for C3's amended theorem at the "All types" manifest. -/
theorem c3_witness : validateErr allTypesManifest = none :=
  (c3_ordered_not_set_equality allTypesManifest (by decide) (by decide) (by decide)).mpr
    (by decide)
/-! ## The `manifestutil` writer validation (`fastValidate`, in src)

`Write` validates its `WriteOptions` with `fastValidate` before emitting
records.  File modes are Go `io/fs.FileMode` values embedded as `Nat`
with the same bit layout. -/

/-- `fs.ModeDir`. -/
def ModeDir : Nat := 2 ^ 31
/-- `fs.ModeSymlink`. -/
def ModeSymlink : Nat := 2 ^ 27
/-- `fs.ModeDevice`. -/
def ModeDevice : Nat := 2 ^ 26
/-- `fs.ModeNamedPipe`. -/
def ModeNamedPipe : Nat := 2 ^ 25
/-- `fs.ModeSocket`. -/
def ModeSocket : Nat := 2 ^ 24
/-- `fs.ModeSetuid`. -/
def ModeSetuid : Nat := 2 ^ 23
/-- `fs.ModeCharDevice`. -/
def ModeCharDevice : Nat := 2 ^ 21
/-- `fs.ModeSticky`. -/
def ModeSticky : Nat := 2 ^ 20
/-- `fs.ModeIrregular`. -/
def ModeIrregular : Nat := 2 ^ 19
/-- Whether `mode` has the single-bit flag `flag` (a power of two)
set: `mode & flag != 0` in Go, computed with division to stay within
kernel-reducible `Nat` operations. -/
def modeHas (mode flag : Nat) : Bool := mode / flag % 2 = 1

/-- `mode & fs.ModeType` in Go: the file-type bits of the mode,
extracted bit by bit (Nat bitwise operations are avoided because their
kernel reduction is ineffective). -/
def modeType (mode : Nat) : Nat :=
  (if modeHas mode ModeDir then ModeDir else 0) +
  (if modeHas mode ModeSymlink then ModeSymlink else 0) +
  (if modeHas mode ModeNamedPipe then ModeNamedPipe else 0) +
  (if modeHas mode ModeSocket then ModeSocket else 0) +
  (if modeHas mode ModeDevice then ModeDevice else 0) +
  (if modeHas mode ModeCharDevice then ModeCharDevice else 0) +
  (if modeHas mode ModeIrregular then ModeIrregular else 0)

/-- `manifestutil.unixPerm`: the permission bits (`mode & 0777`, the low
nine bits), with the sticky bit folded into `01000` (adding `512` sets
that bit, which is clear in `perm`). -/
def unixPerm (mode : Nat) : Nat :=
  let perm := mode % 512
  if modeHas mode ModeSticky then perm + 512 else perm

/-- A `setup.Slice` reference as used by the writer: package and slice
name; `SliceKey.str` is `setup.Slice.String()`, the underscore-joined
`<pkg>_<slice>`. -/
structure SliceKey where
  pkg : String
  name : String
deriving DecidableEq

/-- `setup.Slice.String()`. -/
def SliceKey.str (s : SliceKey) : String := s.pkg ++ "_" ++ s.name

/-- `archive.PackageInfo`. -/
structure PackageInfo where
  name : String
  version : String
  arch : String
  sha256 : String
deriving DecidableEq

/-- `manifestutil.ReportEntry`. -/
structure ReportEntry where
  path : String
  mode : Nat
  sha256 : String
  size : Nat
  slices : List SliceKey
  link : String
  finalSha256 : String
  inode : Nat
deriving DecidableEq

/-- `manifestutil.Report`: entries indexed by their rooted-relative
path (the Go map is embedded as an association list whose order is the
map's iteration order). -/
structure Report where
  root : String
  entries : List (String × ReportEntry)
  inodes : List (Nat × Nat)
  lastId : Nat
deriving DecidableEq

/-- The errors of `validateReportEntry`, one constructor per `return`
site. -/
inductive REErr where
  | linkSetForDir
  | shaSetForDir
  | finalShaSetForDir
  | sizeSetForDir
  | linkNotSetForSymlink
  | shaSetForSymlink
  | finalShaSetForSymlink
  | sizeSetForSymlink
  | unsupportedType (path : String)
  | slicesEmpty
deriving DecidableEq

/-- The literal message of each `validateReportEntry` error. -/
def REErr.msg : REErr → String
  | .linkSetForDir => "link set for directory"
  | .shaSetForDir => "sha256 set for directory"
  | .finalShaSetForDir => "final_sha256 set for directory"
  | .sizeSetForDir => "size set for directory"
  | .linkNotSetForSymlink => "link not set for symlink"
  | .shaSetForSymlink => "sha256 set for symlink"
  | .finalShaSetForSymlink => "final_sha256 set for symlink"
  | .sizeSetForSymlink => "size set for symlink"
  | .unsupportedType p => "unsupported file type: " ++ p
  | .slicesEmpty => "slices is empty"

/-- The errors of `fastValidate`, one constructor per `return` site. -/
inductive FVErr where
  | pkgNameNotSet
  | pkgMissingArch (name : String)
  | pkgMissingSha (name : String)
  | pkgMissingVersion (name : String)
  | sliceMissingPkg (slice : String) (pkg : String)
  | entryInvalid (path : String) (sub : REErr)
  | pathMissingSlice (path : String) (slice : String)
  | missingLinkId (id : Nat)
  | singletonGroup (id : Nat) (path : String)
  | divergingHardLink (a : String) (b : String)
deriving DecidableEq

/-- The literal message of each `fastValidate` error (before the
deferred `internal error: invalid manifest: ` wrapping). -/
def FVErr.msg : FVErr → String
  | .pkgNameNotSet => "package name not set"
  | .pkgMissingArch n => "package " ++ quoteGo n ++ " missing arch"
  | .pkgMissingSha n => "package " ++ quoteGo n ++ " missing sha256"
  | .pkgMissingVersion n => "package " ++ quoteGo n ++ " missing version"
  | .sliceMissingPkg s p => "slice " ++ s ++ " refers to missing package " ++ quoteGo p
  | .entryInvalid p sub => "path " ++ quoteGo p ++ " has invalid options: " ++ sub.msg
  | .pathMissingSlice p s => "path " ++ quoteGo p ++ " refers to missing slice " ++ s
  | .missingLinkId id => "cannot find hard link id " ++ toString id
  | .singletonGroup id p => "hard link group " ++ toString id ++ " has only one path: " ++ p
  | .divergingHardLink a b =>
    "hard linked paths " ++ quoteGo a ++ " and " ++ quoteGo b ++ " have diverging contents"

/-- `manifestutil.WriteOptions`. -/
structure WriteOptions where
  packageInfo : List PackageInfo
  selection : List SliceKey
  report : Report
deriving DecidableEq

/-- `manifestutil.validatePackage`. -/
def validatePackage (pkg : PackageInfo) : Option FVErr :=
  if pkg.name = "" then some .pkgNameNotSet
  else if pkg.arch = "" then some (.pkgMissingArch pkg.name)
  else if pkg.sha256 = "" then some (.pkgMissingSha pkg.name)
  else if pkg.version = "" then some (.pkgMissingVersion pkg.name)
  else none

/-- `manifestutil.validateReportEntry`: the `switch entry.Mode &
fs.ModeType` statement followed by the slices-is-empty check. -/
def validateReportEntry (e : ReportEntry) : Option REErr :=
  let typeErr :=
    if modeType e.mode = 0 then none
    else if modeType e.mode = ModeDir then
      if e.link ≠ "" then some REErr.linkSetForDir
      else if e.sha256 ≠ "" then some REErr.shaSetForDir
      else if e.finalSha256 ≠ "" then some REErr.finalShaSetForDir
      else if e.size ≠ 0 then some REErr.sizeSetForDir
      else none
    else if modeType e.mode = ModeSymlink then
      if e.link = "" then some REErr.linkNotSetForSymlink
      else if e.sha256 ≠ "" then some REErr.shaSetForSymlink
      else if e.finalSha256 ≠ "" then some REErr.finalShaSetForSymlink
      else if e.size ≠ 0 then some REErr.sizeSetForSymlink
      else none
    else some (REErr.unsupportedType e.path)
  match typeErr with
  | some err => some err
  | none => if e.slices.isEmpty then some REErr.slicesEmpty else none

/-- The package loop of `fastValidate`. -/
def checkPackagesFV : List PackageInfo → Option FVErr
  | [] => none
  | p :: rest =>
    match validatePackage p with
    | some e => some e
    | none => checkPackagesFV rest

/-- The selection loop of `fastValidate`: every slice's package must be
in `pkgExist`. -/
def checkSelection (pkgNames : List String) : List SliceKey → Option FVErr
  | [] => none
  | s :: rest =>
    if s.pkg ∉ pkgNames then some (.sliceMissingPkg s.str s.pkg)
    else checkSelection pkgNames rest

/-- The per-entry slice check in the entries loop of `fastValidate`. -/
def checkEntrySlices (sliceNames : List String) (e : ReportEntry) : Option FVErr :=
  match e.slices.find? (fun s => decide (s.str ∉ sliceNames)) with
  | some s => some (.pathMissingSlice e.path s.str)
  | none => none

/-- The entries loop of `fastValidate`: `validateReportEntry` (wrapped
with the entry's path) then the slice-existence check. -/
def checkEntries (sliceNames : List String) : List ReportEntry → Option FVErr
  | [] => none
  | e :: rest =>
    match validateReportEntry e with
    | some err => some (.entryInvalid e.path err)
    | none =>
      match checkEntrySlices sliceNames e with
      | some err => some err
      | none => checkEntries sliceNames rest

/-- The fields compared between members of a hard-link group: link,
`unixPerm` of the mode, sha256, size, final_sha256. -/
def entryTuple (e : ReportEntry) : String × Nat × String × Nat × String :=
  (e.link, unixPerm e.mode, e.sha256, e.size, e.finalSha256)

/-- `hardLinkGroups[id]`: the entries with hard-link inode `id`, in
entry-iteration order (Go appends while ranging over the entries). -/
def hlGroup (entries : List ReportEntry) (id : Nat) : List ReportEntry :=
  entries.filter (fun e => decide (e.inode = id))

/-- The distinct non-zero inodes, in order of first appearance; its
length is Go's `len(hardLinkGroups)`. -/
def nonzeroInodes (entries : List ReportEntry) : List Nat :=
  ((entries.filter (fun e => decide (e.inode ≠ 0))).map (·.inode)).dedup

/-- Lexicographic order on character lists, modelling Go's `<=` on
strings for the ASCII paths of this development (`String`'s own order
is avoided: its `Decidable` instance does not reduce in the kernel). -/
def charListLe : List Char → List Char → Bool
  | [], _ => true
  | _ :: _, [] => false
  | a :: as, b :: bs => if a = b then charListLe as bs else decide (a < b)

/-- Go's `<=` on path strings. -/
def pathLe (a b : String) : Bool := charListLe a.data b.data

/-- Insertion step of the by-path sort used on a hard-link group. -/
def insertByPath (e : ReportEntry) : List ReportEntry → List ReportEntry
  | [] => [e]
  | x :: xs => if pathLe e.path x.path then e :: x :: xs else x :: insertByPath e xs

/-- The `sort.Slice(entries, by path)` call of `fastValidate`. -/
def sortByPath (l : List ReportEntry) : List ReportEntry := l.foldr insertByPath []

/-- Comparison of every member of a sorted hard-link group against its
first (path-smallest) element `e0`, as in `fastValidate`. -/
def checkGroupSorted : List ReportEntry → Option FVErr
  | [] => none
  | e0 :: rest =>
    match rest.find? (fun e => decide (entryTuple e ≠ entryTuple e0)) with
    | some e => some (.divergingHardLink e0.path e.path)
    | none => none

/-- The body of the per-id hard-link group check of `fastValidate`:
missing id, singleton group, then pairwise comparison of every member
against the (path-) smallest one. -/
def checkGroup (entries : List ReportEntry) (id : Nat) : Option FVErr :=
  match hlGroup entries id with
  | [] => some (.missingLinkId id)
  | [e] => some (.singletonGroup id e.path)
  | a :: b :: t => checkGroupSorted (sortByPath (a :: b :: t))

/-- The `for id := 1; id <= len(hardLinkGroups); id++` loop of
`fastValidate`. -/
def checkAllGroups (entries : List ReportEntry) : Option FVErr :=
  (List.range' 1 (nonzeroInodes entries).length).findSome? (checkGroup entries)

/-- The entry list `fastValidate` iterates (the values of the report's
entries map). -/
def hlEntries (opts : WriteOptions) : List ReportEntry :=
  opts.report.entries.map Prod.snd

/-- `manifestutil.fastValidate` (before its deferred wrapping, which
here — unlike the reader's `Validate` — only fires on a non-nil
error). -/
def fastValidate (opts : WriteOptions) : Option FVErr :=
  match checkPackagesFV opts.packageInfo with
  | some e => some e
  | none =>
    match checkSelection (opts.packageInfo.map (·.name)) opts.selection with
    | some e => some e
    | none =>
      match checkEntries (opts.selection.map (·.str)) (hlEntries opts) with
      | some e => some e
      | none => checkAllGroups (hlEntries opts)

/-- The wrapped error of `fastValidate`, as `Write` would surface it. -/
def fastValidateMsg (opts : WriteOptions) : Option String :=
  (fastValidate opts).map (fun e => "internal error: invalid manifest: " ++ e.msg)

/-! Helper lemmas about the hard-link group check. -/

theorem mem_insertByPath (e x : ReportEntry) (l : List ReportEntry) :
    x ∈ insertByPath e l ↔ x = e ∨ x ∈ l := by
  induction l with
  | nil => simp [insertByPath]
  | cons a t ih =>
    unfold insertByPath
    cases h : pathLe e.path a.path with
    | true => simp
    | false =>
      simp [ih]
      tauto

theorem mem_sortByPath (l : List ReportEntry) (x : ReportEntry) :
    x ∈ sortByPath l ↔ x ∈ l := by
  induction l with
  | nil => simp [sortByPath]
  | cons a t ih =>
    show x ∈ insertByPath a (sortByPath t) ↔ _
    rw [mem_insertByPath]
    simp [ih]

theorem checkGroup_eq_none (entries : List ReportEntry) (id : Nat)
    (h : checkGroup entries id = none) :
    2 ≤ (hlGroup entries id).length ∧
    ∀ x ∈ hlGroup entries id, ∀ y ∈ hlGroup entries id, entryTuple x = entryTuple y := by
  unfold checkGroup at h
  split at h
  · exact absurd h (by simp)
  · exact absurd h (by simp)
  · rename_i a b t heq
    rw [heq]
    refine ⟨by simp, ?_⟩
    intro x hx y hy
    rcases hs : sortByPath (a :: b :: t) with _ | ⟨e0, rest⟩
    · exfalso
      have ha : a ∈ sortByPath (a :: b :: t) := (mem_sortByPath _ _).mpr (by simp)
      rw [hs] at ha
      simp at ha
    · rw [hs] at h
      simp only [checkGroupSorted] at h
      cases hf : rest.find? (fun e => decide (entryTuple e ≠ entryTuple e0)) with
      | some e => rw [hf] at h; simp at h
      | none =>
        have hall : ∀ e ∈ e0 :: rest, entryTuple e = entryTuple e0 := by
          intro e he
          rcases List.mem_cons.mp he with rfl | he2
          · rfl
          · simpa using List.find?_eq_none.mp hf e he2
        have hxs : x ∈ sortByPath (a :: b :: t) := (mem_sortByPath _ _).mpr hx
        have hys : y ∈ sortByPath (a :: b :: t) := (mem_sortByPath _ _).mpr hy
        rw [hs] at hxs hys
        rw [hall x hxs, hall y hys]

theorem findSomeNoneIff {α β : Type} (f : α → Option β) (l : List α) :
    l.findSome? f = none ↔ ∀ a ∈ l, f a = none := by
  induction l with
  | nil => simp
  | cons a t ih =>
    rw [List.findSome?_cons]
    cases hf : f a with
    | some b => simp [hf]
    | none => simp [hf, ih]

/-- Claim C9 (amended): when `fastValidate` accepts a `WriteOptions`, every
hard-link group (the entries sharing a non-zero inode) has at least two
members, all its members agree on link, `unixPerm` of the mode (the
permission bits with the sticky bit folded in — not the full mode
value), sha256, size and final_sha256, and the inodes present are
exactly the dense range `1..N`. -/
theorem c9_hard_link_groups (opts : WriteOptions) (h : fastValidate opts = none) :
    (∀ e ∈ hlEntries opts, e.inode ≠ 0 →
        1 ≤ e.inode ∧ e.inode ≤ (nonzeroInodes (hlEntries opts)).length ∧
        2 ≤ (hlGroup (hlEntries opts) e.inode).length) ∧
    (∀ e1 ∈ hlEntries opts, ∀ e2 ∈ hlEntries opts, e1.inode ≠ 0 → e1.inode = e2.inode →
        entryTuple e1 = entryTuple e2) ∧
    (∀ id, 1 ≤ id → id ≤ (nonzeroInodes (hlEntries opts)).length →
        ∃ e ∈ hlEntries opts, e.inode = id) := by
  have hall : checkAllGroups (hlEntries opts) = none := by
    unfold fastValidate at h
    cases h1 : checkPackagesFV opts.packageInfo with
    | some e => rw [h1] at h; simp at h
    | none =>
      rw [h1] at h
      cases h2 : checkSelection (opts.packageInfo.map (·.name)) opts.selection with
      | some e => rw [h2] at h; simp at h
      | none =>
        rw [h2] at h
        cases h3 : checkEntries (opts.selection.map (·.str)) (hlEntries opts) with
        | some e => rw [h3] at h; simp at h
        | none => rw [h3] at h; exact h
  have hids : ∀ id, 1 ≤ id → id ≤ (nonzeroInodes (hlEntries opts)).length →
      checkGroup (hlEntries opts) id = none := by
    intro id hid1 hid2
    have hmem : id ∈ List.range' 1 (nonzeroInodes (hlEntries opts)).length := by
      rw [List.mem_range'_1]
      omega
    exact (findSomeNoneIff _ _).mp hall id hmem
  have hex : ∀ id, 1 ≤ id → id ≤ (nonzeroInodes (hlEntries opts)).length →
      ∃ e ∈ hlEntries opts, e.inode = id := by
    intro id hid1 hid2
    have hg := checkGroup_eq_none (hlEntries opts) id (hids id hid1 hid2)
    have hne : hlGroup (hlEntries opts) id ≠ [] := by
      intro hnil
      rw [hnil] at hg
      simp at hg
    obtain ⟨e, he⟩ := List.exists_mem_of_ne_nil _ hne
    have hm := List.mem_filter.mp he
    exact ⟨e, hm.1, by simpa using hm.2⟩
  have hsub : Finset.Icc 1 (nonzeroInodes (hlEntries opts)).length ⊆
      (nonzeroInodes (hlEntries opts)).toFinset := by
    intro id hid
    rw [Finset.mem_Icc] at hid
    obtain ⟨e, he, hei⟩ := hex id hid.1 hid.2
    rw [List.mem_toFinset]
    unfold nonzeroInodes
    rw [List.mem_dedup, List.mem_map]
    refine ⟨e, List.mem_filter.mpr ⟨he, ?_⟩, hei⟩
    simp only [decide_eq_true_eq]
    omega
  have hnd : (nonzeroInodes (hlEntries opts)).Nodup := by
    unfold nonzeroInodes
    exact List.nodup_dedup _
  have hcard : ((nonzeroInodes (hlEntries opts)).toFinset).card ≤
      (Finset.Icc 1 (nonzeroInodes (hlEntries opts)).length).card := by
    rw [Nat.card_Icc]
    rw [List.toFinset_card_of_nodup hnd]
    omega
  have heq := Finset.eq_of_subset_of_card_le hsub hcard
  have hbounds : ∀ e ∈ hlEntries opts, e.inode ≠ 0 →
      1 ≤ e.inode ∧ e.inode ≤ (nonzeroInodes (hlEntries opts)).length := by
    intro e he hi
    have hmem : e.inode ∈ (nonzeroInodes (hlEntries opts)).toFinset := by
      rw [List.mem_toFinset]
      unfold nonzeroInodes
      rw [List.mem_dedup, List.mem_map]
      exact ⟨e, List.mem_filter.mpr ⟨he, by simpa using hi⟩, rfl⟩
    rw [← heq, Finset.mem_Icc] at hmem
    exact hmem
  refine ⟨?_, ?_, hex⟩
  · intro e he hi
    obtain ⟨hb1, hb2⟩ := hbounds e he hi
    have hg := checkGroup_eq_none (hlEntries opts) e.inode (hids _ hb1 hb2)
    exact ⟨hb1, hb2, hg.1⟩
  · intro e1 he1 e2 he2 hi hieq
    obtain ⟨hb1, hb2⟩ := hbounds e1 he1 hi
    have hg := checkGroup_eq_none (hlEntries opts) e1.inode (hids _ hb1 hb2)
    apply hg.2
    · exact List.mem_filter.mpr ⟨he1, by simp⟩
    · refine List.mem_filter.mpr ⟨he2, ?_⟩
      simp only [decide_eq_true_eq]
      omega

/-- A report entry whose mode carries the setuid bit on top of `0644`. -/
def c9setuidEntry : ReportEntry :=
  { path := "/a", mode := ModeSetuid + 0o644, sha256 := "h1", size := 5,
    slices := [⟨"pkg1", "s"⟩], link := "", finalSha256 := "", inode := 1 }

/-- A report entry like `c9setuidEntry` but with plain mode `0644`. -/
def c9plainEntry : ReportEntry :=
  { path := "/b", mode := 0o644, sha256 := "h1", size := 5,
    slices := [⟨"pkg1", "s"⟩], link := "", finalSha256 := "", inode := 1 }

/-- Write options holding one hard-link group whose two members differ
in their full mode (setuid bit) but agree on `unixPerm`. -/
def c9opts : WriteOptions :=
  { packageInfo := [{ name := "pkg1", version := "v1", arch := "amd64", sha256 := "h" }],
    selection := [⟨"pkg1", "s"⟩],
    report := { root := "/", entries := [("/a", c9setuidEntry), ("/b", c9plainEntry)],
                inodes := [], lastId := 1 } }

/-- Claim C9 counterexample: the claim says all members of a hard-link group
have equal mode, rejected otherwise with a diverging-contents error.
`fastValidate` compares only `unixPerm(mode)` — permission bits plus
sticky — so this report, whose two group-1 members have different
`mode` values (one carries setuid), is accepted without error. -/
theorem c9_counterexample :
    fastValidate c9opts = none ∧
    c9setuidEntry ∈ hlEntries c9opts ∧ c9plainEntry ∈ hlEntries c9opts ∧
    c9setuidEntry.inode = 1 ∧ c9plainEntry.inode = 1 ∧
    c9setuidEntry.mode ≠ c9plainEntry.mode := by
  refine ⟨by decide, by decide, by decide, by decide, by decide, by decide⟩

/-- A well-formed two-member hard-link group (equal full modes). -/
def c9wEntryA : ReportEntry :=
  { path := "/a", mode := 0o644, sha256 := "h1", size := 5,
    slices := [⟨"pkg1", "s"⟩], link := "", finalSha256 := "", inode := 1 }

/-- Second member of the well-formed group. -/
def c9wEntryB : ReportEntry :=
  { path := "/b", mode := 0o644, sha256 := "h1", size := 5,
    slices := [⟨"pkg1", "s"⟩], link := "", finalSha256 := "", inode := 1 }

/-- Write options holding the well-formed group. -/
def c9wopts : WriteOptions :=
  { packageInfo := [{ name := "pkg1", version := "v1", arch := "amd64", sha256 := "h" }],
    selection := [⟨"pkg1", "s"⟩],
    report := { root := "/", entries := [("/a", c9wEntryA), ("/b", c9wEntryB)],
                inodes := [], lastId := 1 } }

/-- Witness for C9's amended theorem on a concrete valid report. -/
theorem c9_witness :
    fastValidate c9wopts = none ∧ 2 ≤ (hlGroup (hlEntries c9wopts) 1).length :=
  ⟨by decide, ((c9_hard_link_groups c9wopts (by decide)).1 c9wEntryA (by decide)
      (by decide)).2.2⟩

/-! ## The `manifestutil` Report (modelled from the spec)

The implementation of `manifestutil.NewReport` and `Report.Add` is code
of this repository that is not in the source tree — only its tests
(`internal/manifestutil/report_test.go`) and its consumers are.  The
operations below are modelled from the spec (§4.4 "Report", §7 error
messages), with the message formats the tests pin. -/

/-- `fsutil.Entry`: the information `Add` receives about a created
filesystem entry.  `hardLinkInode` is the source's hard-link inode of
§4.4 step 4, `0` meaning "not hard linked". -/
structure FsEntry where
  path : String
  mode : Nat
  sha256 : String
  size : Nat
  link : String
  hardLinkInode : Nat
deriving DecidableEq

/-- Whether the entry describes a directory. -/
def FsEntry.isDir (e : FsEntry) : Bool := modeHas e.mode ModeDir

/-- Modelled from the spec: the normalization `NewReport` applies to an
accepted root — the cleaned path, terminated with the directory
separator (§4.4 step 1 requires the prefix test of `Add` to treat a
root-prefix without the separator as outside, and the report tests
render the root `/base/` with its slash). -/
def normRoot (root : String) : String :=
  let c := cleanPath root
  if c = "/" then "/" else c ++ "/"

/-- Modelled from the spec: `manifestutil.NewReport` (§4.4 "Creation";
only its tests are in the tree).  A relative root is rejected with the
test-pinned message; an absolute root is stored cleaned and
separator-terminated. -/
def NewReport (root : String) : Except String Report :=
  if isAbsPath root then
    .ok { root := normRoot root, entries := [], inodes := [], lastId := 0 }
  else
    .error ("cannot use relative path for report root: " ++ quoteGo root)

/-- Octal digits of `n` (at least one digit), via fueled recursion. -/
def octalCore : Nat → Nat → List Char
  | 0, _ => []
  | _ + 1, 0 => []
  | fuel + 1, n => octalCore fuel (n / 8) ++ [Char.ofNat (48 + n % 8)]

/-- `0%03o` rendering of `n` as Go does for modes: octal, left-padded
with zeros to three digits, with a leading `0`. -/
def goOct (n : Nat) : String :=
  let ds := if n = 0 then ['0'] else octalCore 16 n
  ⟨'0' :: (List.replicate (3 - ds.length) '0' ++ ds)⟩

/-- The diverging-mode message of `Add` (test-pinned format; the mode
renders as its permission bits with sticky folded, per §8's mode
rendering). -/
def divergingModeMsg (relPath : String) (newMode oldMode : Nat) : String :=
  "path " ++ relPath ++ " reported twice with diverging mode: " ++
    goOct (unixPerm newMode) ++ " != " ++ goOct (unixPerm oldMode)

/-- The diverging-link message of `Add`. -/
def divergingLinkMsg (relPath newLink oldLink : String) : String :=
  "path " ++ relPath ++ " reported twice with diverging link: " ++
    quoteGo newLink ++ " != " ++ quoteGo oldLink

/-- The diverging-size message of `Add`. -/
def divergingSizeMsg (relPath : String) (newSize oldSize : Nat) : String :=
  "path " ++ relPath ++ " reported twice with diverging size: " ++
    toString newSize ++ " != " ++ toString oldSize

/-- The diverging-hash message of `Add`. -/
def divergingHashMsg (relPath newHash oldHash : String) : String :=
  "path " ++ relPath ++ " reported twice with diverging hash: " ++
    quoteGo newHash ++ " != " ++ quoteGo oldHash

/-- §4.4 step 2: the rooted-relative path of an absolute path under the
(separator-terminated) root; directories keep a trailing slash, as the
report tests expect (`/base/example-dir/` is keyed `/example-dir/`). -/
def relPathOfRoot (root path : String) (isDir : Bool) : String :=
  let p := cleanPath ⟨'/' :: path.data.drop root.data.length⟩
  if isDir then p ++ "/" else p

/-- Lookup in the entries association list. -/
def lookupEntry (entries : List (String × ReportEntry)) (k : String) : Option ReportEntry :=
  (entries.find? (fun kv => decide (kv.1 = k))).map (·.2)

/-- Point update of the entries association list. -/
def updateEntry (entries : List (String × ReportEntry)) (k : String) (v : ReportEntry) :
    List (String × ReportEntry) :=
  entries.map (fun kv => if kv.1 = k then (kv.1, v) else kv)

/-- Union of a slice into a slice set (§4.4 step 3). -/
def insertSlice (s : SliceKey) (l : List SliceKey) : List SliceKey :=
  if s ∈ l then l else l ++ [s]

/-- §4.4 step 4: assign (or reuse) the dense hard-link group ID for a
non-zero source inode. -/
def assignInode (r : Report) (src : Nat) : Nat × Report :=
  if src = 0 then (0, r)
  else
    match (r.inodes.find? (fun kv => decide (kv.1 = src))).map (·.2) with
    | some id => (id, r)
    | none =>
      (r.lastId + 1, { r with inodes := r.inodes ++ [(src, r.lastId + 1)],
                              lastId := r.lastId + 1 })

/-- Modelled from the spec: `manifestutil.Report.Add` (§4.4 steps 1–4;
only its tests are in the tree).  Step 1 rejects paths outside the
normalized root by prefix match, with the §7 message.  Step 2 computes
the rooted-relative path.  Step 3, for an already-present path,
requires mode, link, size and sha256 to match the stored entry —
otherwise the diverging-field error carries both values — and unions
the slice into the entry's slice set.  Step 4 stores a fresh entry,
assigning the dense hard-link group ID when the source had a non-zero
inode. -/
def Report.add (r : Report) (slice : SliceKey) (e : FsEntry) : Except String Report :=
  if strPfx r.root e.path then
    let relPath := relPathOfRoot r.root e.path e.isDir
    match lookupEntry r.entries relPath with
    | some entry =>
      if e.mode ≠ entry.mode then
        .error (divergingModeMsg relPath e.mode entry.mode)
      else if e.link ≠ entry.link then
        .error (divergingLinkMsg relPath e.link entry.link)
      else if e.size ≠ entry.size then
        .error (divergingSizeMsg relPath e.size entry.size)
      else if e.sha256 ≠ entry.sha256 then
        .error (divergingHashMsg relPath e.sha256 entry.sha256)
      else
        let entry2 := { entry with slices := insertSlice slice entry.slices }
        .ok { r with entries := updateEntry r.entries relPath entry2 }
    | none =>
      let idr := assignInode r e.hardLinkInode
      let fresh : ReportEntry :=
        { path := relPath, mode := e.mode, sha256 := e.sha256, size := e.size,
          slices := [slice], link := e.link, finalSha256 := "", inode := idr.1 }
      .ok { idr.2 with entries := idr.2.entries ++ [(relPath, fresh)] }
  else
    .error ("cannot add path to report: " ++ e.path ++ " outside of root " ++ r.root)

/-! Lemmas about root normalization. -/

theorem isAbsPath_cleanPath (p : String) (h : isAbsPath p = true) :
    isAbsPath (cleanPath p) = true := by
  have hne : p ≠ "" := by
    intro he
    rw [he] at h
    exact absurd h (by decide)
  unfold cleanPath
  rw [if_neg hne]
  simp only [h, if_true]
  by_cases hseg : (resolveSegs true [] (segsOf p)).isEmpty = true
  · rw [if_pos hseg]
    decide
  · rw [if_neg hseg]
    rfl

theorem isAbsPath_append (a b : String) (h : a.data ≠ []) :
    isAbsPath (a ++ b) = isAbsPath a := by
  unfold isAbsPath
  rw [strData_append]
  rcases hd : a.data with _ | ⟨c, rest⟩
  · exact absurd hd h
  · simp

theorem isAbsPath_normRoot (root : String) (h : isAbsPath root = true) :
    isAbsPath (normRoot root) = true := by
  unfold normRoot
  by_cases hc : cleanPath root = "/"
  · rw [if_pos hc]
    decide
  · rw [if_neg hc]
    have habs := isAbsPath_cleanPath root h
    have hne : (cleanPath root).data ≠ [] := by
      intro hnil
      unfold isAbsPath at habs
      rw [hnil] at habs
      exact absurd habs (by decide)
    rw [isAbsPath_append _ _ hne]
    exact habs

/-- Claim C5: `NewReport` (spec-modelled, its implementation is not in the
tree) rejects every relative root with the test-pinned message,
accepts the root `/` storing `/` itself, and stores for every accepted
root the cleaned absolute root path — `Clean(root)` terminated with
the directory separator (or `/` itself), which is again absolute. -/
theorem c5_new_report_root (root : String) :
    (isAbsPath root = false →
      NewReport root =
        .error ("cannot use relative path for report root: " ++ quoteGo root)) ∧
    (isAbsPath root = true →
      NewReport root = .ok { root := normRoot root, entries := [], inodes := [], lastId := 0 } ∧
      isAbsPath (normRoot root) = true ∧
      normRoot root = (if cleanPath root = "/" then "/" else cleanPath root ++ "/")) ∧
    NewReport "/" = .ok { root := "/", entries := [], inodes := [], lastId := 0 } := by
  refine ⟨?_, ?_, ?_⟩
  · intro h
    unfold NewReport
    rw [h]
    simp
  · intro h
    refine ⟨?_, isAbsPath_normRoot root h, rfl⟩
    unfold NewReport
    rw [h]
    simp
  · rfl

/-- Witness for C5 at the test inputs `"../base/"` and `"/"`. -/
theorem c5_witness :
    NewReport "../base/" =
      .error "cannot use relative path for report root: \"../base/\"" ∧
    NewReport "/" = .ok { root := "/", entries := [], inodes := [], lastId := 0 } :=
  ⟨by
    rw [(c5_new_report_root "../base/").1 (by decide)]
    exact congrArg Except.error (by decide),
   (c5_new_report_root "/").2.2⟩

/-- Claim C6: `Add` (spec-modelled) rejects every path that is not a string
extension of the normalized, separator-terminated root, with the §7
message, leaving the report unchanged (the error result carries no new
report). Because the stored root ends in the separator, a path that
shares the root only as a raw string prefix (such as `/basefile` under
root `/base/`) fails the prefix test and is rejected. -/
theorem c6_outside_root (r : Report) (s : SliceKey) (e : FsEntry)
    (hout : strPfx r.root e.path = false) :
    r.add s e =
      .error ("cannot add path to report: " ++ e.path ++ " outside of root " ++ r.root) := by
  unfold Report.add
  rw [hout]
  simp

/-- The slice used by the report test fixtures. -/
def oneSliceKey : SliceKey := ⟨"base-files", "my-slice"⟩

/-- The report rooted at `/base/` (as produced by `NewReport`). -/
def baseReport : Report := { root := "/base/", entries := [], inodes := [], lastId := 0 }

/-- The `/basefile` entry of the "root prefix without the directory
slash" test. -/
def basefileEntry : FsEntry :=
  { path := "/basefile", mode := 0, sha256 := "", size := 0, link := "", hardLinkInode := 0 }

/-- Witness for C6: `/basefile` under root `/base/` is rejected with
the exact test-pinned message. -/
theorem c6_witness :
    NewReport "/base/" = .ok baseReport ∧
    baseReport.add oneSliceKey basefileEntry =
      .error "cannot add path to report: /basefile outside of root /base/" :=
  ⟨rfl, by
    rw [c6_outside_root baseReport oneSliceKey basefileEntry (by decide)]
    exact congrArg Except.error (by decide)⟩

/-- Claim C2: `Add` on an already-present rooted-relative path (spec-modelled,
the implementation is not in the tree) errors exactly when the second
addition's mode, link, size or sha256 diverges from the stored entry —
the error naming the first diverging field in that order, with the new
and stored values — and when all four agree it succeeds, changing only
the stored entry's slice set, into which the new slice is unioned. An
error changes nothing: the functional result carries no new report. -/
theorem c2_add_same_path (r : Report) (s : SliceKey) (e : FsEntry) (entry : ReportEntry)
    (hin : strPfx r.root e.path = true)
    (hfound : lookupEntry r.entries (relPathOfRoot r.root e.path e.isDir) = some entry) :
    ((e.mode ≠ entry.mode ∨ e.link ≠ entry.link ∨ e.size ≠ entry.size ∨
        e.sha256 ≠ entry.sha256) ↔ ∃ msg, r.add s e = Except.error msg) ∧
    (e.mode ≠ entry.mode → r.add s e = Except.error
      (divergingModeMsg (relPathOfRoot r.root e.path e.isDir) e.mode entry.mode)) ∧
    (e.mode = entry.mode → e.link ≠ entry.link → r.add s e = Except.error
      (divergingLinkMsg (relPathOfRoot r.root e.path e.isDir) e.link entry.link)) ∧
    (e.mode = entry.mode → e.link = entry.link → e.size ≠ entry.size →
      r.add s e = Except.error
        (divergingSizeMsg (relPathOfRoot r.root e.path e.isDir) e.size entry.size)) ∧
    (e.mode = entry.mode → e.link = entry.link → e.size = entry.size →
      e.sha256 ≠ entry.sha256 → r.add s e = Except.error
        (divergingHashMsg (relPathOfRoot r.root e.path e.isDir) e.sha256 entry.sha256)) ∧
    (e.mode = entry.mode → e.link = entry.link → e.size = entry.size →
      e.sha256 = entry.sha256 → r.add s e = Except.ok
        { r with
          entries := updateEntry r.entries (relPathOfRoot r.root e.path e.isDir)
                       ({ entry with slices := insertSlice s entry.slices }) }) := by
  have hadd : r.add s e =
      (if e.mode ≠ entry.mode then Except.error
        (divergingModeMsg (relPathOfRoot r.root e.path e.isDir) e.mode entry.mode)
      else if e.link ≠ entry.link then Except.error
        (divergingLinkMsg (relPathOfRoot r.root e.path e.isDir) e.link entry.link)
      else if e.size ≠ entry.size then Except.error
        (divergingSizeMsg (relPathOfRoot r.root e.path e.isDir) e.size entry.size)
      else if e.sha256 ≠ entry.sha256 then Except.error
        (divergingHashMsg (relPathOfRoot r.root e.path e.isDir) e.sha256 entry.sha256)
      else Except.ok
        { r with
          entries := updateEntry r.entries (relPathOfRoot r.root e.path e.isDir)
                       ({ entry with slices := insertSlice s entry.slices }) }) := by
    unfold Report.add
    rw [hin]
    simp only [if_true, hfound]
  rw [hadd]
  refine ⟨?_, ?_, ?_, ?_, ?_, ?_⟩
  · constructor
    · intro hdiff
      by_cases hm : e.mode ≠ entry.mode
      · exact ⟨_, by rw [if_pos hm]⟩
      · by_cases hl : e.link ≠ entry.link
        · exact ⟨_, by rw [if_neg hm, if_pos hl]⟩
        · by_cases hz : e.size ≠ entry.size
          · exact ⟨_, by rw [if_neg hm, if_neg hl, if_pos hz]⟩
          · have hh : e.sha256 ≠ entry.sha256 := by
              rcases hdiff with h | h | h | h
              · exact absurd h hm
              · exact absurd h hl
              · exact absurd h hz
              · exact h
            exact ⟨_, by rw [if_neg hm, if_neg hl, if_neg hz, if_pos hh]⟩
    · rintro ⟨msg, hmsg⟩
      by_contra hnot
      push_neg at hnot
      obtain ⟨h1, h2, h3, h4⟩ := hnot
      rw [if_neg (by simp [h1]), if_neg (by simp [h2]), if_neg (by simp [h3]),
        if_neg (by simp [h4])] at hmsg
      exact Except.noConfusion hmsg
  · intro hm
    rw [if_pos hm]
  · intro h1 hl
    rw [if_neg (by simp [h1]), if_pos hl]
  · intro h1 h2 hz
    rw [if_neg (by simp [h1]), if_neg (by simp [h2]), if_pos hz]
  · intro h1 h2 h3 hh
    rw [if_neg (by simp [h1]), if_neg (by simp [h2]), if_neg (by simp [h3]), if_pos hh]
  · intro h1 h2 h3 h4
    rw [if_neg (by simp [h1]), if_neg (by simp [h2]), if_neg (by simp [h3]),
      if_neg (by simp [h4])]

/-- The stored `/example-file` entry of the report test fixtures. -/
def c2stored : ReportEntry :=
  { path := "/example-file", mode := 0o777, sha256 := "example-file_hash", size := 5678,
    slices := [oneSliceKey], link := "", finalSha256 := "", inode := 0 }

/-- A report rooted at `/base/` already holding `/example-file`. -/
def c2report : Report :=
  { root := "/base/", entries := [("/example-file", c2stored)], inodes := [], lastId := 0 }

/-- The second addition of the "same path distinct mode" test: mode `0`
against the stored `0777`. -/
def c2entryDiffMode : FsEntry :=
  { path := "/base/example-file", mode := 0, sha256 := "example-file_hash", size := 5678,
    link := "", hardLinkInode := 0 }

/-- The second addition of the "same path, identical files" test. -/
def c2entrySame : FsEntry :=
  { path := "/base/example-file", mode := 0o777, sha256 := "example-file_hash", size := 5678,
    link := "", hardLinkInode := 0 }

/-- Witness for C2 at the report tests' inputs: a diverging mode yields
the exact pinned message; an identical second addition succeeds and
only unions the slice. -/
theorem c2_witness :
    c2report.add oneSliceKey c2entryDiffMode =
      .error "path /example-file reported twice with diverging mode: 0000 != 0777" ∧
    c2report.add oneSliceKey c2entrySame =
      .ok { c2report with
            entries := updateEntry c2report.entries "/example-file"
                         ({ c2stored with slices := insertSlice oneSliceKey c2stored.slices }) } :=
  ⟨by
    rw [(c2_add_same_path c2report oneSliceKey c2entryDiffMode c2stored (by decide)
      (by decide)).2.1 (by decide)]
    exact congrArg Except.error (by decide),
   by
    rw [(c2_add_same_path c2report oneSliceKey c2entrySame c2stored (by decide)
      (by decide)).2.2.2.2.2 rfl rfl rfl rfl]
    rfl⟩

/-! ## The slicer Report (src/internal/slicer/report.go) -/

/-- Modelled from the spec: glob matching of `strdist.GlobPath` (the
`strdist` package is not in the tree).  §4.5: `*` matches within a path
segment, `**` matches across segments, `?` matches one character;
other characters match literally. -/
def globMatch (g s : List Char) : Bool :=
  match g, s with
  | [], [] => true
  | [], _ :: _ => false
  | '*' :: '*' :: g2, [] => globMatch g2 []
  | '*' :: '*' :: g2, c :: s2 => globMatch g2 (c :: s2) || globMatch ('*' :: '*' :: g2) s2
  | '*' :: g2, [] => globMatch g2 []
  | '*' :: g2, c :: s2 =>
    globMatch g2 (c :: s2) || (decide (c ≠ '/') && globMatch ('*' :: g2) s2)
  | '?' :: _, [] => false
  | '?' :: g2, c :: s2 => decide (c ≠ '/') && globMatch g2 s2
  | _ :: _, [] => false
  | c :: g2, d :: s2 => decide (c = d) && globMatch g2 s2
termination_by (g.length, s.length)

/-- Modelled from the spec: `strdist.GlobPath pattern path`. -/
def GlobPath (pattern path : String) : Bool := globMatch pattern.data path.data

/-- `slicer.ReportEntry`. -/
structure SlicerReportEntry where
  path : String
  mode : Nat
  hash : String
  size : Nat
  slices : List SliceKey
  link : String
deriving DecidableEq

/-- `slicer.Report`: root, entries indexed by rooted-relative path,
the `Marked` path set and the `MarkedGlob` glob list. -/
structure SlicerReport where
  root : String
  entries : List (String × SlicerReportEntry)
  marked : List String
  markedGlob : List String
deriving DecidableEq

/-- `slicer.NewReport`: stores the root as given, with empty entries
and marks. -/
def slicerNewReport (root : String) : SlicerReport :=
  { root := root, entries := [], marked := [], markedGlob := [] }

/-- `fsutil.Info`, the argument of slicer `Report.Add`. -/
structure FsInfo where
  path : String
  mode : Nat
  hash : String
  size : Nat
  link : String
deriving DecidableEq

/-- Lookup in the slicer entries association list. -/
def lookupSE (entries : List (String × SlicerReportEntry)) (k : String) :
    Option SlicerReportEntry :=
  (entries.find? (fun kv => decide (kv.1 = k))).map (·.2)

/-- Point update of the slicer entries association list. -/
def updateSE (entries : List (String × SlicerReportEntry)) (k : String)
    (v : SlicerReportEntry) : List (String × SlicerReportEntry) :=
  entries.map (fun kv => if kv.1 = k then (kv.1, v) else kv)

/-- Union of a slice into a slicer entry's slice set. -/
def insertSliceKey (s : SliceKey) (l : List SliceKey) : List SliceKey :=
  if s ∈ l then l else l ++ [s]

/-- `slicer.Report.Add` (src/internal/slicer/report.go): the
rooted-relative path is `"/" + filepath.Rel(root, path)` (a `Rel`
error becomes the internal-error message); a path neither in `Marked`
nor matched by any `MarkedGlob` glob returns nil with nothing recorded
(the source's early `return nil` — here the marked-or-glob condition
guards the entry logic, which is equivalent); otherwise an existing
entry must agree on mode, link, size and hash (else the conflicting-
data error) and gains the slice, and a missing entry is stored
fresh. -/
def SlicerReport.add (r : SlicerReport) (slice : SliceKey) (info : FsInfo) :
    Except String SlicerReport :=
  match relPathGo r.root info.path with
  | none =>
    .error ("internal error: cannot add path " ++ quoteGo info.path ++
      " outside out root " ++ quoteGo r.root)
  | some rel =>
    let relPath := "/" ++ rel
    if relPath ∈ r.marked ∨ r.markedGlob.any (fun g => GlobPath g relPath) then
      match lookupSE r.entries relPath with
      | some entry =>
        if info.mode ≠ entry.mode ∨ info.link ≠ entry.link ∨ info.size ≠ entry.size ∨
            info.hash ≠ entry.hash then
          .error ("internal error: cannot add conflicting data for path " ++ quoteGo relPath)
        else
          let entry2 := { entry with slices := insertSliceKey slice entry.slices }
          .ok { r with entries := updateSE r.entries relPath entry2 }
      | none =>
        let fresh : SlicerReportEntry :=
          { path := relPath, mode := info.mode, hash := info.hash, size := info.size,
            slices := [slice], link := info.link }
        .ok { r with entries := r.entries ++ [(relPath, fresh)] }
    else
      .ok r

/-- `slicer.Report.Mark`: marks the cleaned path as relevant. -/
def SlicerReport.mark (r : SlicerReport) (path : String) : SlicerReport :=
  { r with marked := r.marked ++ [cleanPath path] }

/-- `slicer.Report.MarkGlob`: registers a glob as relevant. -/
def SlicerReport.markGlob (r : SlicerReport) (path : String) : SlicerReport :=
  { r with markedGlob := r.markedGlob ++ [path] }

/-- Claim C10: an `Add` whose rooted-relative path is neither marked (via
`Mark`) nor matched by any glob registered via `MarkGlob` returns nil
without recording anything — the report, its entries included, is
returned unchanged. -/
theorem c10_unmarked_add_is_noop (r : SlicerReport) (s : SliceKey) (info : FsInfo)
    (rel : String) (hrel : relPathGo r.root info.path = some rel)
    (hm : ("/" ++ rel) ∉ r.marked)
    (hg : ∀ g ∈ r.markedGlob, GlobPath g ("/" ++ rel) = false) :
    r.add s info = .ok r := by
  unfold SlicerReport.add
  rw [hrel]
  have hcond : ¬(("/" ++ rel) ∈ r.marked ∨
      (r.markedGlob.any fun g => GlobPath g ("/" ++ rel)) = true) := by
    rintro (hmem | hany)
    · exact hm hmem
    · obtain ⟨g, hgm, hp⟩ := List.any_eq_true.mp hany
      rw [hg g hgm] at hp
      exact Bool.noConfusion hp
  simp only [if_neg hcond]

/-- A slicer report with one marked path and no globs. -/
def c10report : SlicerReport :=
  { root := "/base", entries := [], marked := ["/other"], markedGlob := [] }

/-- An entry under the root whose rooted-relative path `/file` is not
marked. -/
def c10info : FsInfo :=
  { path := "/base/file", mode := 0o644, hash := "h", size := 1, link := "" }

/-- Witness for C10: adding the unmarked `/base/file` leaves the
report untouched. -/
theorem c10_witness :
    relPathGo c10report.root c10info.path = some "file" ∧
    c10report.add oneSliceKey c10info = .ok c10report :=
  ⟨by decide,
   c10_unmarked_add_is_noop c10report oneSliceKey c10info "file" (by decide) (by decide)
     (by decide)⟩

/-! ## Archive package selection (modelled from the spec)

The archive client implementation is not in the tree (only its tests
are).  §4.1's package-selection rule is modelled: each candidate parsed
from a `Packages` index carries its suite and component; the
highest-priority suite wins — security over updates over the base
suite (§8 scenario 4) — and within one suite the earliest-listed
component. -/

/-- Whether `sfx` is a suffix of `s`. -/
def strSfx (sfx s : String) : Bool := sfx.data.isSuffixOf s.data

/-- Modelled from the spec: a package candidate from one
(suite, component) `Packages` index. -/
structure Candidate where
  suite : String
  component : String
  version : String
  sha256 : String
deriving DecidableEq

/-- Modelled from the spec: suite priority — `-security` pockets
outrank `-updates` pockets, which outrank the base suite. -/
def suitePriority (suite : String) : Nat :=
  if strSfx "-security" suite then 2
  else if strSfx "-updates" suite then 1
  else 0

/-- Modelled from the spec: the ordinal of a component in the
archive's ordered component list. -/
def compOrd : List String → String → Nat
  | [], _ => 0
  | x :: xs, c => if x = c then 0 else compOrd xs c + 1

/-- Modelled from the spec: candidate `a` is strictly preferred to
`b` — higher suite priority, or equal priority and earlier-listed
component. -/
def preferred (components : List String) (a b : Candidate) : Prop :=
  suitePriority b.suite < suitePriority a.suite ∨
  (suitePriority a.suite = suitePriority b.suite ∧
    compOrd components a.component < compOrd components b.component)

instance (components : List String) (a b : Candidate) :
    Decidable (preferred components a b) := by
  unfold preferred
  infer_instance

/-- Keep the better of the running best and the next candidate. -/
def pickBetter (components : List String) (best c : Candidate) : Candidate :=
  if preferred components c best then c else best

/-- Modelled from the spec: selection among a package's candidates. -/
def selectCandidate (components : List String) : List Candidate → Option Candidate
  | [] => none
  | c :: cs => some (cs.foldl (pickBetter components) c)

/-- Modelled from the spec: an opened archive reduced to what `Fetch`
consults for one package name: the ordered component list and the
per-package candidate lists. -/
structure ArchiveIndex where
  components : List String
  packages : List (String × List Candidate)
deriving DecidableEq

/-- Modelled from the spec: the candidate `Fetch` downloads for a
package name. -/
def fetchCandidate (a : ArchiveIndex) (name : String) : Option Candidate :=
  match (a.packages.find? (fun kv => decide (kv.1 = name))).map (·.2) with
  | none => none
  | some cands => selectCandidate a.components cands

theorem preferred_irrefl (components : List String) (a : Candidate) :
    ¬ preferred components a a := by
  unfold preferred
  omega

theorem preferred_asymm (components : List String) {a b : Candidate}
    (h : preferred components a b) : ¬ preferred components b a := by
  unfold preferred at h ⊢
  omega

theorem not_preferred_trans (components : List String) {a b c : Candidate}
    (h1 : ¬ preferred components a b) (h2 : ¬ preferred components b c) :
    ¬ preferred components a c := by
  unfold preferred at h1 h2 ⊢
  omega

theorem fold_pick_mem (components : List String) (cs : List Candidate) (a : Candidate) :
    cs.foldl (pickBetter components) a ∈ a :: cs := by
  induction cs generalizing a with
  | nil => simp
  | cons c cs ih =>
    simp only [List.foldl_cons]
    have hmem := ih (pickBetter components a c)
    rcases List.mem_cons.mp hmem with heq | hmem'
    · rw [heq]
      unfold pickBetter
      by_cases hp : preferred components c a
      · rw [if_pos hp]
        exact List.mem_cons_of_mem _ (List.mem_cons_self c cs)
      · rw [if_neg hp]
        exact List.mem_cons_self a (c :: cs)
    · exact List.mem_cons_of_mem _ (List.mem_cons_of_mem _ hmem')

theorem fold_pick_max (components : List String) (cs : List Candidate) (a : Candidate) :
    ∀ x ∈ a :: cs, ¬ preferred components x (cs.foldl (pickBetter components) a) := by
  induction cs generalizing a with
  | nil =>
    intro x hx
    rw [List.mem_singleton] at hx
    rw [hx]
    exact preferred_irrefl components a
  | cons c cs ih =>
    intro x hx
    simp only [List.foldl_cons]
    by_cases hp : preferred components c a
    · have hpb : pickBetter components a c = c := if_pos hp
      rw [hpb]
      rcases List.mem_cons.mp hx with heq | hx'
      · rw [heq]
        exact not_preferred_trans components (preferred_asymm components hp)
          (ih c c (List.mem_cons_self c cs))
      · rcases List.mem_cons.mp hx' with heq2 | hx2
        · rw [heq2]
          exact ih c c (List.mem_cons_self c cs)
        · exact ih c x (List.mem_cons_of_mem _ hx2)
    · have hpb : pickBetter components a c = a := if_neg hp
      rw [hpb]
      rcases List.mem_cons.mp hx with heq | hx'
      · rw [heq]
        exact ih a a (List.mem_cons_self a cs)
      · rcases List.mem_cons.mp hx' with heq2 | hx2
        · rw [heq2]
          exact not_preferred_trans components hp (ih a a (List.mem_cons_self a cs))
        · exact ih a x (List.mem_cons_of_mem _ hx2)

/-- Claim C7: the selected candidate comes from the configured candidates and
no candidate from a higher-priority suite exists — nor, within the same
suite priority, one from an earlier-listed component (spec-modelled:
the archive client is not in the tree). -/
theorem c7_suite_priority (components : List String) (cands : List Candidate) (c : Candidate)
    (h : selectCandidate components cands = some c) :
    c ∈ cands ∧ ∀ x ∈ cands,
      suitePriority x.suite < suitePriority c.suite ∨
      (suitePriority x.suite = suitePriority c.suite ∧
        compOrd components c.component ≤ compOrd components x.component) := by
  cases cands with
  | nil => exact absurd h (by simp [selectCandidate])
  | cons c0 cs =>
    unfold selectCandidate at h
    have hc := Option.some.inj h
    constructor
    · rw [← hc]
      exact fold_pick_mem components cs c0
    · intro x hx
      have hnp := fold_pick_max components cs c0 x hx
      rw [hc] at hnp
      unfold preferred at hnp
      omega

/-- The `jammy` candidate of `TestFetchSecurityPackage`. -/
def jammyCand : Candidate :=
  { suite := "jammy", component := "main", version := "1.1.0", sha256 := "sb" }

/-- The `jammy-security` candidate of `TestFetchSecurityPackage`. -/
def securityCand : Candidate :=
  { suite := "jammy-security", component := "main", version := "1.1.2.2",
    sha256 := "5448585bdd916e5023eff2bc1bc3b30bcc6ee9db9c03e531375a6a11ddf0913c" }

/-- The `jammy-updates` candidate of `TestFetchSecurityPackage`. -/
def updatesCand : Candidate :=
  { suite := "jammy-updates", component := "main", version := "1.1.1", sha256 := "su" }

/-- The archive of `TestFetchSecurityPackage`: suites
`[jammy, jammy-security, jammy-updates]`, components
`[main, universe]`, `mypkg1` present in all three suites. -/
def securityArchive : ArchiveIndex :=
  { components := ["main", "universe"],
    packages := [("mypkg1", [jammyCand, securityCand, updatesCand])] }

/-- Witness for C7 at the `TestFetchSecurityPackage` scenario: `Fetch`
returns the `jammy-security` candidate. -/
theorem c7_witness :
    fetchCandidate securityArchive "mypkg1" = some securityCand ∧
    securityCand ∈ [jammyCand, securityCand, updatesCand] :=
  ⟨by decide,
   (c7_suite_priority ["main", "universe"] [jammyCand, securityCand, updatesCand]
      securityCand (by decide)).1⟩

/-! ## Multi-archive selection (src/unnamed/part_004 and
src/cmd/chisel/cmd_cut.go)

Both files define a `selectPkgArchives`.  The cohesion tool's version
(part_004) sorts the archives by descending priority, skipping
negative priorities; the cut command's version scans for the maximal
priority with no negative filter.  Go maps become association lists
(map keys are unique); archives are identified by name. -/

/-- `setup.Archive` reduced to what selection consults. -/
structure SetupArchive where
  name : String
  priority : Int
deriving DecidableEq

/-- `setup.Package`: name and optional pinned archive (empty string
means no pin). -/
structure SetupPackage where
  name : String
  archive : String
deriving DecidableEq

/-- `setup.Release` reduced to what selection consults. -/
structure Release where
  archives : List SetupArchive
  packages : List SetupPackage
deriving DecidableEq

/-- The opened-archives map: archive name to the package names for
which its `Exists` reports true.  `archives[n] != nil &&
archives[n].Exists(pkg)`. -/
def pkgInArchive (archives : List (String × List String)) (n pkg : String) : Bool :=
  match (archives.find? (fun kv => decide (kv.1 = n))).map (·.2) with
  | some pkgs => pkg ∈ pkgs
  | none => false

/-- Insertion step of the descending-priority sort of part_004's
`slices.SortFunc` (the Go sort is unstable; order among equal
priorities is not relied upon). -/
def insertArchDesc (a : SetupArchive) : List SetupArchive → List SetupArchive
  | [] => [a]
  | x :: xs => if x.priority ≤ a.priority then a :: x :: xs else x :: insertArchDesc a xs

/-- Sort archives by descending priority. -/
def sortArchDesc (l : List SetupArchive) : List SetupArchive := l.foldr insertArchDesc []

/-- The candidate archives of part_004's `selectPkgArchives` for one
package: the sorted archives, or the pinned archive alone
(`release.Archives[pkg.Archive]`; a pin naming no declared archive
yields no candidates — Go would dereference nil there). -/
def candidatesOf (sortedArchives : List SetupArchive) (release : Release)
    (p : SetupPackage) : List SetupArchive :=
  if p.archive = "" then sortedArchives
  else
    match release.archives.find? (fun a => decide (a.name = p.archive)) with
    | some ai => [ai]
    | none => []

/-- The per-package loop of part_004's `selectPkgArchives`: the first
candidate whose archive exists and reports the package wins; packages
found nowhere are skipped (the TODO'd `continue`). -/
def selectGo (archives : List (String × List String)) (sortedArchives : List SetupArchive)
    (release : Release) : List SetupPackage → List (String × String)
  | [] => []
  | p :: ps =>
    match (candidatesOf sortedArchives release p).find?
        (fun ai => pkgInArchive archives ai.name p.name) with
    | some ai => (p.name, ai.name) :: selectGo archives sortedArchives release ps
    | none => selectGo archives sortedArchives release ps

/-- `selectPkgArchives` (src/unnamed/part_004): build `sortedArchives`
descending by priority, skipping negative priorities; assign each
package the first candidate archive that reports it. -/
def selectPkgArchives (archives : List (String × List String)) (release : Release) :
    List (String × String) :=
  selectGo archives (sortArchDesc (release.archives.filter (fun a => decide (0 ≤ a.priority))))
    release release.packages

/-- Lookup of a package's assigned archive name. -/
def lookupAssign (l : List (String × String)) (name : String) : Option String :=
  (l.find? (fun kv => decide (kv.1 = name))).map (·.2)

/-- The archive-scanning loop of cmd_cut.go's `selectPkgArchives` for
an unpinned package: keep the archive with the strictly largest
priority among those whose `Exists` reports the package — no
negative-priority filter. -/
def cutChoose (archives : List (String × List String)) (pkgName : String) :
    List SetupArchive → Option SetupArchive → Option SetupArchive
  | [], chosen => chosen
  | a :: rest, chosen =>
    if pkgInArchive archives a.name pkgName then
      match chosen with
      | none => cutChoose archives pkgName rest (some a)
      | some ch =>
        if ch.priority < a.priority then cutChoose archives pkgName rest (some a)
        else cutChoose archives pkgName rest (some ch)
    else cutChoose archives pkgName rest chosen

/-- The slice loop of cmd_cut.go's `selectPkgArchives` over the
selection's slice packages (each slice contributes its package name;
already-assigned packages are skipped).  The nil map lookup Go would
hit for a slice package absent from the release is modelled as an
internal error (unreachable for selections produced by
`setup.Select`). -/
def cutGo (archives : List (String × List String)) (release : Release)
    (acc : List (String × String)) : List String → Except String (List (String × String))
  | [] => .ok acc
  | sp :: rest =>
    match release.packages.find? (fun p => decide (p.name = sp)) with
    | none => .error "internal error: slice package not declared in release"
    | some pkg =>
      if (acc.find? (fun kv => decide (kv.1 = pkg.name))).isSome then
        cutGo archives release acc rest
      else if pkg.archive = "" then
        match cutChoose archives pkg.name release.archives none with
        | none => .error ("slice package " ++ quoteGo pkg.name ++ " missing from archive(s)")
        | some chosen => cutGo archives release (acc ++ [(pkg.name, chosen.name)]) rest
      else
        match archives.find? (fun kv => decide (kv.1 = pkg.archive)) with
        | none => .error ("archive " ++ quoteGo pkg.archive ++ " not defined")
        | some kv =>
          if pkg.name ∈ kv.2 then cutGo archives release (acc ++ [(pkg.name, pkg.archive)]) rest
          else .error ("slice package " ++ quoteGo pkg.name ++ " missing from archive")

/-- `selectPkgArchives` (src/cmd/chisel/cmd_cut.go), over the list of
the selection's slice package names. -/
def selectPkgArchivesCut (archives : List (String × List String)) (release : Release)
    (selectionPkgs : List String) : Except String (List (String × String)) :=
  cutGo archives release [] selectionPkgs

/-- A release whose only archive has priority `-1`. -/
def negRelease : Release :=
  { archives := [{ name := "negarch", priority := -1 }],
    packages := [{ name := "p", archive := "" }] }

/-- The opened archives for `negRelease`: `negarch` contains `p`. -/
def negArchives : List (String × List String) := [("negarch", ["p"])]

/-- Claim C8 counterexample: the claim says the multi-archive selection never
assigns a package without a pin to a negative-priority archive — and
cmd_cut.go's `selectPkgArchives` is cited for it.  That version has no
negative-priority filter: with a single priority `-1` archive holding
the package, it assigns it.  (part_004's version skips the archive and
assigns nothing, shown by the last conjunct.) -/
theorem c8_counterexample :
    selectPkgArchivesCut negArchives negRelease ["p"] = .ok [("p", "negarch")] ∧
    (-1 : Int) < 0 ∧
    selectPkgArchives negArchives negRelease = [] :=
  ⟨rfl, by decide, rfl⟩

/-! Lemmas about the descending-priority sort and the selection. -/

theorem mem_insertArchDesc (a x : SetupArchive) (l : List SetupArchive) :
    x ∈ insertArchDesc a l ↔ x = a ∨ x ∈ l := by
  induction l with
  | nil => simp [insertArchDesc]
  | cons b t ih =>
    unfold insertArchDesc
    by_cases h : b.priority ≤ a.priority
    · rw [if_pos h]
      simp [List.mem_cons]
    · rw [if_neg h]
      simp only [List.mem_cons, ih]
      tauto

theorem mem_sortArchDesc (l : List SetupArchive) (x : SetupArchive) :
    x ∈ sortArchDesc l ↔ x ∈ l := by
  induction l with
  | nil => simp [sortArchDesc]
  | cons a t ih =>
    show x ∈ insertArchDesc a (sortArchDesc t) ↔ _
    rw [mem_insertArchDesc]
    simp [ih]

theorem pairwise_insertArchDesc (a : SetupArchive) (l : List SetupArchive)
    (h : l.Pairwise (fun x y => y.priority ≤ x.priority)) :
    (insertArchDesc a l).Pairwise (fun x y => y.priority ≤ x.priority) := by
  induction l with
  | nil => simp [insertArchDesc]
  | cons b t ih =>
    unfold insertArchDesc
    obtain ⟨hb, ht⟩ := List.pairwise_cons.mp h
    by_cases hba : b.priority ≤ a.priority
    · rw [if_pos hba]
      refine List.pairwise_cons.mpr ⟨?_, h⟩
      intro y hy
      rcases List.mem_cons.mp hy with heq | hy'
      · rw [heq]
        exact hba
      · have := hb y hy'
        omega
    · rw [if_neg hba]
      refine List.pairwise_cons.mpr ⟨?_, ih ht⟩
      intro y hy
      rw [mem_insertArchDesc] at hy
      rcases hy with heq | hy'
      · rw [heq]
        omega
      · exact hb y hy'

theorem pairwise_sortArchDesc (l : List SetupArchive) :
    (sortArchDesc l).Pairwise (fun x y => y.priority ≤ x.priority) := by
  induction l with
  | nil => simp [sortArchDesc]
  | cons a t ih => exact pairwise_insertArchDesc a (sortArchDesc t) ih

theorem find?_sorted_no_better (p : SetupArchive → Bool) (l : List SetupArchive)
    (hs : l.Pairwise (fun x y => y.priority ≤ x.priority)) (a : SetupArchive)
    (h : l.find? p = some a) :
    ∀ b ∈ l, a.priority < b.priority → p b = false := by
  induction l with
  | nil => simp at h
  | cons x xs ih =>
    obtain ⟨hx, ht⟩ := List.pairwise_cons.mp hs
    intro b hb hlt
    cases hpx : p x with
    | true =>
      have hxa : x = a := by
        unfold List.find? at h
        rw [hpx] at h
        exact Option.some.inj h
      exfalso
      rcases List.mem_cons.mp hb with heq | hb'
      · rw [heq, ← hxa] at hlt
        omega
      · have := hx b hb'
        rw [hxa] at this
        omega
    | false =>
      have h' : xs.find? p = some a := by
        unfold List.find? at h
        rw [hpx] at h
        exact h
      rcases List.mem_cons.mp hb with heq | hb'
      · rw [heq]
        exact hpx
      · exact ih ht h' b hb' hlt

theorem selectGo_lookup_none (archives : List (String × List String))
    (sortedArchives : List SetupArchive) (release : Release) (ps : List SetupPackage)
    (name : String) (hnot : name ∉ ps.map SetupPackage.name) :
    lookupAssign (selectGo archives sortedArchives release ps) name = none := by
  induction ps with
  | nil => rfl
  | cons p ps ih =>
    have hne : ¬ p.name = name := by
      intro he
      exact hnot (by simp [he])
    have hnot2 : name ∉ ps.map SetupPackage.name := by
      intro hm
      exact hnot (List.mem_cons_of_mem _ hm)
    unfold selectGo
    cases hf : (candidatesOf sortedArchives release p).find?
        (fun ai => pkgInArchive archives ai.name p.name) with
    | some ai =>
      unfold lookupAssign
      unfold List.find?
      simp only [decide_eq_false hne]
      exact ih hnot2
    | none => exact ih hnot2

theorem selectGo_lookup_found (archives : List (String × List String))
    (sortedArchives : List SetupArchive) (release : Release) (ps : List SetupPackage)
    (hnodup : (ps.map SetupPackage.name).Nodup) (pkg : SetupPackage) (hmem : pkg ∈ ps)
    (an : String)
    (hsel : lookupAssign (selectGo archives sortedArchives release ps) pkg.name = some an) :
    ∃ ai, (candidatesOf sortedArchives release pkg).find?
        (fun x => pkgInArchive archives x.name pkg.name) = some ai ∧ ai.name = an := by
  induction ps with
  | nil => simp at hmem
  | cons p ps ih =>
    obtain ⟨hhead, htail⟩ := List.nodup_cons.mp hnodup
    rcases List.mem_cons.mp hmem with heq | hmem'
    · subst heq
      unfold selectGo at hsel
      cases hf : (candidatesOf sortedArchives release pkg).find?
          (fun ai => pkgInArchive archives ai.name pkg.name) with
      | some ai =>
        rw [hf] at hsel
        unfold lookupAssign List.find? at hsel
        simp only [decide_eq_true rfl] at hsel
        exact ⟨ai, rfl, Option.some.inj hsel⟩
      | none =>
        rw [hf] at hsel
        rw [selectGo_lookup_none archives sortedArchives release ps pkg.name
          (by simpa using hhead)] at hsel
        exact Option.noConfusion hsel
    · have hne : ¬ p.name = pkg.name := by
        intro he
        exact hhead (he ▸ List.mem_map_of_mem _ hmem')
      unfold selectGo at hsel
      cases hf : (candidatesOf sortedArchives release p).find?
          (fun ai => pkgInArchive archives ai.name p.name) with
      | some ai =>
        rw [hf] at hsel
        unfold lookupAssign List.find? at hsel
        simp only [decide_eq_false hne] at hsel
        exact ih htail hmem' hsel
      | none =>
        rw [hf] at hsel
        exact ih htail hmem' hsel

/-- Claim C8 (amended): in part_004's `selectPkgArchives` — the version with
the spec's negative-priority skip — a package without a pinned archive
is assigned, when assigned at all, an archive of the release with
non-negative priority whose `Exists` reports the package, and no
non-negative-priority archive of strictly higher priority reports it;
a pinned package is only ever assigned the pinned archive, regardless
of priority.  (cmd_cut.go's version lacks the negative-priority skip;
see the counterexample.)  Package names are unique, as they are Go map
keys in `release.Packages`. -/
theorem c8_select_pkg_archives (archives : List (String × List String)) (release : Release)
    (hnodup : (release.packages.map SetupPackage.name).Nodup)
    (pkg : SetupPackage) (hmem : pkg ∈ release.packages) (an : String)
    (hsel : lookupAssign (selectPkgArchives archives release) pkg.name = some an) :
    (pkg.archive ≠ "" → an = pkg.archive) ∧
    (pkg.archive = "" → ∃ ai ∈ release.archives,
      ai.name = an ∧ 0 ≤ ai.priority ∧ pkgInArchive archives ai.name pkg.name = true ∧
      ∀ b ∈ release.archives, 0 ≤ b.priority → ai.priority < b.priority →
        pkgInArchive archives b.name pkg.name = false) := by
  unfold selectPkgArchives at hsel
  obtain ⟨ai, hfind, hname⟩ :=
    selectGo_lookup_found archives _ release release.packages hnodup pkg hmem an hsel
  constructor
  · intro hpin
    unfold candidatesOf at hfind
    rw [if_neg hpin] at hfind
    cases hfa : release.archives.find? (fun a => decide (a.name = pkg.archive)) with
    | none =>
      rw [hfa] at hfind
      exact absurd hfind (by simp)
    | some pa =>
      rw [hfa] at hfind
      have hpa : decide (pa.name = pkg.archive) = true := by
        simpa using List.find?_some hfa
      have hai : ai = pa := by
        unfold List.find? at hfind
        cases hp : pkgInArchive archives pa.name pkg.name with
        | true =>
          rw [hp] at hfind
          exact (Option.some.inj hfind).symm
        | false =>
          rw [hp] at hfind
          exact absurd hfind (by simp)
      rw [← hname, hai]
      exact of_decide_eq_true hpa
  · intro hnopin
    unfold candidatesOf at hfind
    rw [if_pos hnopin] at hfind
    have hmem_ai := List.mem_of_find?_eq_some hfind
    rw [mem_sortArchDesc] at hmem_ai
    have hmem2 := List.mem_filter.mp hmem_ai
    have hpred : pkgInArchive archives ai.name pkg.name = true := by
      simpa using List.find?_some hfind
    refine ⟨ai, hmem2.1, hname, by simpa using hmem2.2, hpred, ?_⟩
    intro b hb hbpri hlt
    have hbmem : b ∈ sortArchDesc
        (release.archives.filter (fun a => decide (0 ≤ a.priority))) := by
      rw [mem_sortArchDesc]
      exact List.mem_filter.mpr ⟨hb, by simpa⟩
    exact find?_sorted_no_better _ _ (pairwise_sortArchDesc _) ai hfind b hbmem hlt

/-- A release pinning package `p` to the negative-priority archive. -/
def pinRelease : Release :=
  { archives := [{ name := "negarch", priority := -1 }],
    packages := [{ name := "p", archive := "negarch" }] }

/-- Witness for C8's amended theorem: the pinned package is assigned
its pinned archive even though that archive's priority is negative. -/
theorem c8_witness :
    lookupAssign (selectPkgArchives negArchives pinRelease) "p" = some "negarch" ∧
    "negarch" = ({ name := "p", archive := "negarch" } : SetupPackage).archive :=
  ⟨by decide,
   (c8_select_pkg_archives negArchives pinRelease (by decide)
      { name := "p", archive := "negarch" } (by decide) "negarch" (by decide)).1
     (by decide)⟩
